import Mathlib

/-!
Verification of the inter-market ratio-chart core: the historical-series
normalization, the interval-to-range policy, the ratio reconciler
(`calculateRatioKLine` in `src/services/stockServiceBase.ts`), and the
pair-orchestrating validation (`fetchUSRatioKLine` in
`src/services/usStockService.ts`).

Prices are modelled as exact rationals (`ℚ`); a separate extended-number
type `JSNum` models the floating-point division semantics (Infinity/NaN)
where a claim is about non-finite propagation.  Timestamps are integers
(milliseconds since epoch).
-/

namespace InterMarket

/-- One OHLCV bar, as in the `KLineData` interface of the source
(timestamp in milliseconds, open/high/low/close/volume numeric). -/
structure KLineData where
  timestamp : Int
  «open» : ℚ
  high : ℚ
  low : ℚ
  close : ℚ
  volume : ℚ
deriving DecidableEq

/-- The interval-to-range policy of `getAppropriateRange` in
`stockServiceBase.ts` (a `switch` on the interval token). -/
def getAppropriateRange (interval : String) : String :=
  if interval = "1d" then "2y"
  else if interval = "1wk" then "10y"
  else if interval = "1mo" then "max"
  else "2y"

/-- The common start timestamp computed at the top of `calculateRatioKLine`:
the `max` of the two series' first timestamps, an empty series contributing
`0`. -/
def commonStartTimestamp (numeratorData denominatorData : List KLineData) : Int :=
  let numFirstTimestamp : Int :=
    match numeratorData with
    | [] => 0
    | x :: _ => x.timestamp
  let denomFirstTimestamp : Int :=
    match denominatorData with
    | [] => 0
    | x :: _ => x.timestamp
  max numFirstTimestamp denomFirstTimestamp

/-- The denominator lookup map of `calculateRatioKLine`: the source builds a
`Map` by `forEach`/`set` over the denominator series (a later duplicate
timestamp overwrites an earlier one) and then queries it by timestamp; the
fold reproduces exactly that last-match-wins lookup. -/
def denomLookup (denominatorData : List KLineData) (ts : Int) : Option KLineData :=
  denominatorData.foldl (fun acc item => if item.timestamp = ts then some item else acc) none

/-- The ratio bar built in the loop body of `calculateRatioKLine` for one
matched numerator/denominator pair. -/
def ratioBar (numItem denomItem : KLineData) : KLineData :=
  let ratioOpen := numItem.«open» / denomItem.«open»
  let ratioClose := numItem.close / denomItem.close
  let ratioHigh :=
    max (max (numItem.high / denomItem.low) (numItem.high / denomItem.high))
      (max ratioOpen ratioClose)
  let ratioLow :=
    min (min (numItem.low / denomItem.high) (numItem.low / denomItem.low))
      (min ratioOpen ratioClose)
  { timestamp := numItem.timestamp
    «open» := ratioOpen
    high := ratioHigh
    low := ratioLow
    close := ratioClose
    volume := numItem.volume }

/-- The ratio reconciler `calculateRatioKLine` of `stockServiceBase.ts`:
skip numerator bars before the common start, skip numerator bars with no
denominator bar at the exact same timestamp, and emit the ratio bar for
each matched pair, in numerator order. -/
def calculateRatioKLine (numeratorData denominatorData : List KLineData) : List KLineData :=
  let commonStart := commonStartTimestamp numeratorData denominatorData
  numeratorData.filterMap fun numItem =>
    if numItem.timestamp < commonStart then none
    else
      match denomLookup denominatorData numItem.timestamp with
      | none => none
      | some denomItem => some (ratioBar numItem denomItem)

/-- The normalization loop of `fetchHistoricalData` in `stockServiceBase.ts`
(lines 183-201), with the network layer elided: the parsed raw response is
given as its columnar arrays (`timestamp` in seconds, parallel OHLCV arrays
in which `none` stands for a JS `null`, and an out-of-range index stands for
JS `undefined` - the source tests `== null`, which matches both).  A row is
skipped when any of open/high/low/close is null/absent; a kept row's
timestamp is converted from seconds to milliseconds and its volume is
`quote.volume[i] || 0`. -/
def normalizeHistoricalData (timestamp : List Int)
    (openCol highCol lowCol closeCol volumeCol : List (Option ℚ)) : List KLineData :=
  (List.range timestamp.length).filterMap fun i =>
    match (openCol.get? i).join, (highCol.get? i).join,
        (lowCol.get? i).join, (closeCol.get? i).join with
    | some o, some h, some l, some c =>
        some { timestamp := timestamp.getD i 0 * 1000
               «open» := o
               high := h
               low := l
               close := c
               volume := ((volumeCol.get? i).join).getD 0 }
    | _, _, _, _ => none

/-- Splitting a character list on a separator, with the semantics of JS
`String.prototype.split` on a one-character separator: the empty string
yields `[""]`, a trailing separator yields a trailing empty part. -/
def splitOnChar (sep : Char) : List Char → List (List Char)
  | [] => [[]]
  | c :: cs =>
    if c = sep then [] :: splitOnChar sep cs
    else
      match splitOnChar sep cs with
      | [] => [[c]]
      | p :: ps => (c :: p) :: ps

/-- JS `pairSymbol.split(sep)` for a one-character separator, over the
string's character list. -/
def jsSplit (sep : Char) (s : String) : List String :=
  (splitOnChar sep s.data).map fun cs => ⟨cs⟩

/-- Leading-whitespace removal, the building block of `jsTrim`. -/
def trimLeading : List Char → List Char := List.dropWhile Char.isWhitespace

/-- JS `String.prototype.trim`: strip leading and trailing whitespace. -/
def jsTrim (s : String) : String :=
  ⟨(trimLeading (trimLeading s.data.reverse).reverse)⟩

deriving instance DecidableEq for Except

/-- The pair-orchestrating operation `fetchUSRatioKLine` of
`usStockService.ts` (identically `fetchRatioKLine` of the legacy service),
with its network effects reified as data: instead of performing the two
`fetchHistoricalData` calls, it returns the list of
(symbol, range, interval) fetch requests it issues, or the thrown
invalid-pair error.  The source splits the pair on a slash, destructures the
first two parts (a missing part, JS `undefined`, is as falsy as the empty
string and is modelled by `getD _ ""`), throws if either is falsy, and
otherwise fetches both trimmed symbols with the interval-appropriate
range. -/
def fetchUSRatioKLine (pairSymbol : String) (interval : String) :
    Except String (List (String × String × String)) :=
  let parts := jsSplit '/' pairSymbol
  let numerator := parts.getD 0 ""
  let denominator := parts.getD 1 ""
  if numerator = "" ∨ denominator = "" then
    Except.error ("Invalid trading pair: " ++ pairSymbol)
  else
    let actualRange := getAppropriateRange interval
    Except.ok
      [(jsTrim numerator, actualRange, interval), (jsTrim denominator, actualRange, interval)]

/-- An idealized JS number: an exact rational, one of the two infinities, or
NaN.  This carries exactly the distinctions the floating-point claims are
about (finite versus non-finite propagation through division); rounding and
signed zero are not modelled. -/
inductive JSNum where
  | num (q : ℚ)
  | posInf
  | negInf
  | nan
deriving DecidableEq

namespace JSNum

/-- JS division semantics: division never throws; a finite value divided by
zero is a signed infinity (or NaN for 0/0), infinities divide to NaN against
each other and to a signed infinity against finite values, and NaN
propagates. -/
def div : JSNum → JSNum → JSNum
  | nan, _ => nan
  | _, nan => nan
  | posInf, posInf => nan
  | posInf, negInf => nan
  | negInf, posInf => nan
  | negInf, negInf => nan
  | posInf, num b => if 0 ≤ b then posInf else negInf
  | negInf, num b => if 0 ≤ b then negInf else posInf
  | num _, posInf => num 0
  | num _, negInf => num 0
  | num a, num b =>
      if b = 0 then (if 0 < a then posInf else if a < 0 then negInf else nan)
      else num (a / b)

/-- JS `Math.max` semantics: NaN-propagating, with the infinities ordered
around the finite values. -/
def jmax : JSNum → JSNum → JSNum
  | nan, _ => nan
  | _, nan => nan
  | posInf, _ => posInf
  | _, posInf => posInf
  | negInf, y => y
  | x, negInf => x
  | num a, num b => num (max a b)

/-- JS `Math.min` semantics: NaN-propagating, with the infinities ordered
around the finite values. -/
def jmin : JSNum → JSNum → JSNum
  | nan, _ => nan
  | _, nan => nan
  | negInf, _ => negInf
  | _, negInf => negInf
  | posInf, y => y
  | x, posInf => x
  | num a, num b => num (min a b)

/-- JS `Number.isFinite`. -/
def isFinite : JSNum → Bool
  | num _ => true
  | _ => false

end JSNum

/-- A `KLineData` bar over idealized JS numbers, for the claims about
floating-point (non-finite) behaviour of the reconciler. -/
structure KLineDataJS where
  timestamp : Int
  «open» : JSNum
  high : JSNum
  low : JSNum
  close : JSNum
  volume : JSNum
deriving DecidableEq

/-- `denomLookup` over JS-number bars (same last-match-wins `Map`
semantics). -/
def denomLookupJS (denominatorData : List KLineDataJS) (ts : Int) : Option KLineDataJS :=
  denominatorData.foldl (fun acc item => if item.timestamp = ts then some item else acc) none

/-- The loop body of `calculateRatioKLine` over idealized JS numbers, with
`Math.max`/`Math.min` spread over the two cross ratios and open/close. -/
def ratioBarJS (numItem denomItem : KLineDataJS) : KLineDataJS :=
  let ratioOpen := numItem.«open».div denomItem.«open»
  let ratioClose := numItem.close.div denomItem.close
  let ratioHigh :=
    ((numItem.high.div denomItem.low).jmax (numItem.high.div denomItem.high)).jmax
      (ratioOpen.jmax ratioClose)
  let ratioLow :=
    ((numItem.low.div denomItem.high).jmin (numItem.low.div denomItem.low)).jmin
      (ratioOpen.jmin ratioClose)
  { timestamp := numItem.timestamp
    «open» := ratioOpen
    high := ratioHigh
    low := ratioLow
    close := ratioClose
    volume := numItem.volume }

/-- `calculateRatioKLine` over idealized JS numbers: the same alignment
algorithm, with division/max/min carrying JS floating-point (non-finite)
semantics.  Like the source, it is a total function: every input pair,
including empty or degenerate series, yields a (possibly empty) output
list - no error path exists. -/
def calculateRatioKLineJS (numeratorData denominatorData : List KLineDataJS) :
    List KLineDataJS :=
  let numFirstTimestamp : Int :=
    match numeratorData with
    | [] => 0
    | x :: _ => x.timestamp
  let denomFirstTimestamp : Int :=
    match denominatorData with
    | [] => 0
    | x :: _ => x.timestamp
  let commonStart := max numFirstTimestamp denomFirstTimestamp
  numeratorData.filterMap fun numItem =>
    if numItem.timestamp < commonStart then none
    else
      match denomLookupJS denominatorData numItem.timestamp with
      | none => none
      | some denomItem => some (ratioBarJS numItem denomItem)


/-! ### Helper lemmas about the reconciler -/

/-- The fold behind `denomLookup` ignores its accumulator as soon as any
element of the list matches; otherwise it returns the accumulator. -/
theorem denomLookup_foldl_acc (ts : Int) (xs : List KLineData) :
    ∀ acc : Option KLineData,
      xs.foldl (fun a item => if item.timestamp = ts then some item else a) acc =
        (xs.foldl (fun a item => if item.timestamp = ts then some item else a) none).elim
          acc some := by
  induction xs with
  | nil => intro acc; simp
  | cons x xs ih =>
    intro acc
    simp only [List.foldl_cons]
    rw [ih (if x.timestamp = ts then some x else acc),
      ih (if x.timestamp = ts then some x else none)]
    rcases hfold : xs.foldl (fun a item => if item.timestamp = ts then some item else a) none with
        _ | d
    · by_cases hx : x.timestamp = ts <;> simp [hfold, hx]
    · simp [hfold]

/-- A successful `denomLookup` returns a denominator bar at the requested
timestamp. -/
theorem denomLookup_mem (den : List KLineData) (ts : Int) {d : KLineData}
    (h : denomLookup den ts = some d) : d ∈ den ∧ d.timestamp = ts := by
  have aux : ∀ (xs : List KLineData) (acc : Option KLineData) (d : KLineData),
      xs.foldl (fun a item => if item.timestamp = ts then some item else a) acc = some d →
        (d ∈ xs ∧ d.timestamp = ts) ∨ acc = some d := by
    intro xs
    induction xs with
    | nil => intro acc d h; exact Or.inr h
    | cons x xs ih =>
      intro acc d h
      simp only [List.foldl_cons] at h
      rcases ih _ _ h with h1 | h2
      · exact Or.inl ⟨List.mem_cons_of_mem _ h1.1, h1.2⟩
      · by_cases hx : x.timestamp = ts
        · rw [if_pos hx] at h2
          cases h2
          exact Or.inl ⟨List.mem_cons_self _ _, hx⟩
        · rw [if_neg hx] at h2
          exact Or.inr h2
  rcases aux den none d h with h1 | h2
  · exact h1
  · simp at h2

/-- If no element of the list matches the requested timestamp, the fold
behind `denomLookup` returns its accumulator unchanged. -/
theorem denomLookup_foldl_of_forall_ne (ts : Int) (xs : List KLineData)
    (hne : ∀ y ∈ xs, y.timestamp ≠ ts) :
    ∀ acc : Option KLineData,
      xs.foldl (fun a item => if item.timestamp = ts then some item else a) acc = acc := by
  induction xs with
  | nil => intro acc; simp
  | cons x xs ih =>
    intro acc
    simp only [List.foldl_cons, if_neg (hne x (List.mem_cons_self _ _))]
    exact ih (fun y hy => hne y (List.mem_cons_of_mem _ hy)) acc

/-- On a series with pairwise-distinct timestamps, `denomLookup` finds each
member bar at its own timestamp. -/
theorem denomLookup_of_mem {den : List KLineData}
    (hnd : (den.map KLineData.timestamp).Nodup) {d : KLineData} (hd : d ∈ den) {ts : Int}
    (hts : d.timestamp = ts) : denomLookup den ts = some d := by
  induction den with
  | nil => cases hd
  | cons x xs ih =>
    simp only [List.map_cons, List.nodup_cons] at hnd
    simp only [denomLookup, List.foldl_cons]
    rcases List.mem_cons.mp hd with rfl | hmem
    · rw [if_pos hts]
      apply denomLookup_foldl_of_forall_ne
      intro y hy hyts
      have hyd : y.timestamp = d.timestamp := hyts.trans hts.symm
      exact hnd.1 (hyd ▸ List.mem_map_of_mem KLineData.timestamp hy)
    · have hlook : denomLookup xs ts = some d := ih hnd.2 hmem
      simp only [denomLookup] at hlook
      rw [denomLookup_foldl_acc ts xs (if x.timestamp = ts then some x else none), hlook]
      rfl

/-- Membership characterization of the reconciler output: a bar is emitted
exactly for a numerator bar at or after the common start whose timestamp is
found in the denominator lookup, and it is the ratio bar of that matched
pair. -/
theorem mem_calculateRatioKLine {num den : List KLineData} {b : KLineData} :
    b ∈ calculateRatioKLine num den ↔
      ∃ n, n ∈ num ∧ commonStartTimestamp num den ≤ n.timestamp ∧
        ∃ d, denomLookup den n.timestamp = some d ∧ b = ratioBar n d := by
  simp only [calculateRatioKLine, List.mem_filterMap]
  constructor
  · rintro ⟨n, hn, hf⟩
    by_cases hlt : n.timestamp < commonStartTimestamp num den
    · rw [if_pos hlt] at hf; cases hf
    · rw [if_neg hlt] at hf
      rcases hl : denomLookup den n.timestamp with _ | d
      · rw [hl] at hf; cases hf
      · rw [hl] at hf
        cases hf
        exact ⟨n, hn, not_lt.mp hlt, d, hl, rfl⟩
  · rintro ⟨n, hn, hcs, d, hl, rfl⟩
    refine ⟨n, hn, ?_⟩
    rw [if_neg (not_lt.mpr hcs), hl]

/-- Each emitted ratio bar keeps its numerator bar's timestamp. -/
theorem ratioBar_timestamp (n d : KLineData) : (ratioBar n d).timestamp = n.timestamp := rfl

/-- The timestamps of a timestamp-preserving `filterMap` form a sublist of
the input timestamps. -/
theorem filterMap_map_timestamp_sublist (f : KLineData → Option KLineData)
    (hf : ∀ n b, f n = some b → b.timestamp = n.timestamp) :
    ∀ num : List KLineData,
      List.Sublist ((num.filterMap f).map KLineData.timestamp)
        (num.map KLineData.timestamp) := by
  intro num
  induction num with
  | nil => simp
  | cons x xs ih =>
    rcases hx : f x with _ | b
    · simp only [List.filterMap_cons, hx, List.map_cons]
      exact ih.cons x.timestamp
    · simp only [List.filterMap_cons, hx, List.map_cons]
      rw [hf x b hx]
      exact ih.cons₂ x.timestamp

/-- The reconciler's output timestamps form a sublist of the numerator's
timestamps. -/
theorem calculateRatioKLine_map_timestamp_sublist (num den : List KLineData) :
    List.Sublist ((calculateRatioKLine num den).map KLineData.timestamp)
      (num.map KLineData.timestamp) := by
  apply filterMap_map_timestamp_sublist
  intro n b hf
  by_cases hlt : n.timestamp < commonStartTimestamp num den
  · rw [if_pos hlt] at hf; cases hf
  · rw [if_neg hlt] at hf
    rcases hl : denomLookup den n.timestamp with _ | d
    · rw [hl] at hf; cases hf
    · rw [hl] at hf
      cases hf
      rfl

/-- `x / 0` is never finite in JS semantics, whatever `x` is. -/
theorem JSNum.div_num_zero_not_finite (x : JSNum) :
    (x.div (JSNum.num 0)).isFinite = false := by
  cases x with
  | num a =>
    rcases lt_trichotomy a 0 with h | h | h
    · simp [JSNum.div, JSNum.isFinite, h, not_lt.mpr h.le]
    · simp [JSNum.div, JSNum.isFinite, h]
    · simp [JSNum.div, JSNum.isFinite, h, not_lt.mpr h.le]
  | posInf => norm_num [JSNum.div, JSNum.isFinite]
  | negInf => norm_num [JSNum.div, JSNum.isFinite]
  | nan => simp [JSNum.div, JSNum.isFinite]


/-! ### Claim theorems -/

/-- C6: the interval-to-range policy is the exact fixed lookup: the daily
interval token maps to the 2-year range token, the weekly interval token to
the 10-year range token, the monthly interval token to the
maximum-available range token, and every other interval string maps to the
2-year default. -/
theorem getAppropriateRange_policy :
    getAppropriateRange ("1d") = "2y" ∧ getAppropriateRange ("1wk") = "10y" ∧
      getAppropriateRange ("1mo") = "max" ∧
      ∀ interval : String, interval ≠ "1d" → interval ≠ "1wk" → interval ≠ "1mo" →
        getAppropriateRange interval = "2y" := by
  refine ⟨by decide, by decide, by decide, ?_⟩
  intro interval h1 h2 h3
  simp [getAppropriateRange, h1, h2, h3]

/-- C6 witness: an unrecognized interval token falls back to the 2-year
default. -/
theorem getAppropriateRange_policy_witness : getAppropriateRange ("5m") = "2y" :=
  getAppropriateRange_policy.2.2.2 ("5m") (by decide) (by decide) (by decide)

/-- C1: for every matched pair of bars (n, d) at the same timestamp (at or
after the common start, in a denominator series with distinct timestamps),
the reconciler emits a bar with open = n.open/d.open,
close = n.close/d.close, high = max(n.high/d.low, n.high/d.high, open,
close), low = min(n.low/d.high, n.low/d.low, open, close), volume =
n.volume (the denominator volume is discarded), and timestamp =
n.timestamp. -/
theorem calculateRatioKLine_matched_pair_formula
    (num den : List KLineData) (n d : KLineData)
    (hden : (den.map KLineData.timestamp).Nodup)
    (hn : n ∈ num) (hd : d ∈ den) (hts : d.timestamp = n.timestamp)
    (hcs : commonStartTimestamp num den ≤ n.timestamp) :
    ({ timestamp := n.timestamp
       «open» := n.«open» / d.«open»
       high := max (max (n.high / d.low) (n.high / d.high))
         (max (n.«open» / d.«open») (n.close / d.close))
       low := min (min (n.low / d.high) (n.low / d.low))
         (min (n.«open» / d.«open») (n.close / d.close))
       close := n.close / d.close
       volume := n.volume } : KLineData) ∈ calculateRatioKLine num den := by
  rw [mem_calculateRatioKLine]
  exact ⟨n, hn, hcs, d, denomLookup_of_mem hden hd hts, rfl⟩

/-- C1 witness: the formula bar for a concrete matched pair is in the
output. -/
theorem calculateRatioKLine_matched_pair_formula_witness :
    ({ timestamp := (5 : Int)
       «open» := (10 : ℚ) / 2
       high := max (max ((20 : ℚ) / 1) ((20 : ℚ) / 4)) (max ((10 : ℚ) / 2) ((16 : ℚ) / 2))
       low := min (min ((8 : ℚ) / 4) ((8 : ℚ) / 1)) (min ((10 : ℚ) / 2) ((16 : ℚ) / 2))
       close := (16 : ℚ) / 2
       volume := (100 : ℚ) } : KLineData) ∈
      calculateRatioKLine [⟨5, 10, 20, 8, 16, 100⟩] [⟨5, 2, 4, 1, 2, 999⟩] :=
  calculateRatioKLine_matched_pair_formula [⟨5, 10, 20, 8, 16, 100⟩] [⟨5, 2, 4, 1, 2, 999⟩]
    ⟨5, 10, 20, 8, 16, 100⟩ ⟨5, 2, 4, 1, 2, 999⟩ (by simp) (by simp) (by simp) (by decide)
    (by decide)

/-- C2: the reconciler excludes every numerator bar before the common start
and every numerator bar whose timestamp has no exact denominator match
(every output bar is at or after the common start and has a denominator bar
at its timestamp); on the spec scenario - numerator timestamps [1,2,3] with
closes [10,20,30], denominator timestamps [2,3,4] with closes [5,5,5] - the
output is exactly the two bars at timestamps [2,3] with closes [4,6]. -/
theorem calculateRatioKLine_excludes :
    (∀ (num den : List KLineData) (b : KLineData), b ∈ calculateRatioKLine num den →
        commonStartTimestamp num den ≤ b.timestamp ∧ ∃ d ∈ den, d.timestamp = b.timestamp) ∧
      calculateRatioKLine
          [⟨1, 10, 10, 10, 10, 0⟩, ⟨2, 20, 20, 20, 20, 0⟩, ⟨3, 30, 30, 30, 30, 0⟩]
          [⟨2, 5, 5, 5, 5, 0⟩, ⟨3, 5, 5, 5, 5, 0⟩, ⟨4, 5, 5, 5, 5, 0⟩] =
        [⟨2, 4, 4, 4, 4, 0⟩, ⟨3, 6, 6, 6, 6, 0⟩] := by
  constructor
  · intro num den b hb
    rw [mem_calculateRatioKLine] at hb
    obtain ⟨n, _, hcs, d, hl, rfl⟩ := hb
    have hd := denomLookup_mem den n.timestamp hl
    exact ⟨hcs, d, hd.1, hd.2⟩
  · norm_num [calculateRatioKLine, commonStartTimestamp, denomLookup, ratioBar,
      List.filterMap_cons, max_def, min_def]

/-- C2 witness: a concrete output bar is at or after the common start and
has a denominator bar at its timestamp. -/
theorem calculateRatioKLine_excludes_witness :
    commonStartTimestamp [⟨2, 20, 20, 20, 20, 0⟩] [⟨2, 5, 5, 5, 5, 0⟩] ≤
        (⟨2, 4, 4, 4, 4, 0⟩ : KLineData).timestamp ∧
      ∃ d ∈ [(⟨2, 5, 5, 5, 5, 0⟩ : KLineData)],
        d.timestamp = (⟨2, 4, 4, 4, 4, 0⟩ : KLineData).timestamp :=
  calculateRatioKLine_excludes.1 [⟨2, 20, 20, 20, 20, 0⟩] [⟨2, 5, 5, 5, 5, 0⟩]
    ⟨2, 4, 4, 4, 4, 0⟩
    (by norm_num [calculateRatioKLine, commonStartTimestamp, denomLookup, ratioBar,
      List.filterMap_cons, max_def, min_def])


/-- C3 counterexample: for the valid one-bar series S with open 1, high 2,
low 1, close 1 (positive prices, low <= open, close <= high), the
self-ratio bar has high = 2 and low = 1/2, not 1: the clamping formula
yields high = S.high/S.low on a self-ratio. -/
theorem calculateRatioKLine_self_not_all_one :
    calculateRatioKLine [⟨1, 1, 2, 1, 1, 5⟩] [⟨1, 1, 2, 1, 1, 5⟩] =
        [⟨1, 1, 2, 1/2, 1, 5⟩] ∧
      (2 : ℚ) ≠ 1 := by
  constructor
  · norm_num [calculateRatioKLine, commonStartTimestamp, denomLookup, ratioBar,
      List.filterMap_cons, max_def, min_def]
  · norm_num

/-- C3 (amended): for every series S with pairwise-distinct timestamps,
positive OHLC prices and low <= high, every bar of reconcile(S, S) has
open = close = 1 exactly, high = n.high/n.low and low = n.low/n.high for
the bar n of S at the same timestamp (both equal to 1 only when that bar
has high = low), and volume equal to n.volume. -/
theorem calculateRatioKLine_self (S : List KLineData)
    (hnd : (S.map KLineData.timestamp).Nodup)
    (hpos : ∀ x ∈ S, 0 < x.«open» ∧ 0 < x.high ∧ 0 < x.low ∧ 0 < x.close)
    (hlh : ∀ x ∈ S, x.low ≤ x.high) :
    ∀ b ∈ calculateRatioKLine S S, ∃ n ∈ S, n.timestamp = b.timestamp ∧
      b.«open» = 1 ∧ b.close = 1 ∧ b.high = n.high / n.low ∧ b.low = n.low / n.high ∧
      b.volume = n.volume := by
  intro b hb
  rw [mem_calculateRatioKLine] at hb
  obtain ⟨n, hn, _, d, hl, rfl⟩ := hb
  have hd := denomLookup_mem S n.timestamp hl
  have hdn : d = n := List.inj_on_of_nodup_map hnd hd.1 hn hd.2
  subst hdn
  obtain ⟨ho, hh, hlo, hc⟩ := hpos d (hd.1)
  have hone : (1 : ℚ) ≤ d.high / d.low := (one_le_div hlo).mpr (hlh d hd.1)
  have hone' : d.low / d.high ≤ 1 := (div_le_one hh).mpr (hlh d hd.1)
  refine ⟨d, hd.1, rfl, ?_, ?_, ?_, ?_, rfl⟩
  · exact div_self ho.ne'
  · exact div_self hc.ne'
  · show max (max (d.high / d.low) (d.high / d.high))
        (max (d.«open» / d.«open») (d.close / d.close)) = d.high / d.low
    rw [div_self ho.ne', div_self hc.ne', div_self hh.ne', max_self, max_eq_left hone,
      max_eq_left hone]
  · show min (min (d.low / d.high) (d.low / d.low))
        (min (d.«open» / d.«open») (d.close / d.close)) = d.low / d.high
    rw [div_self ho.ne', div_self hc.ne', div_self hlo.ne', min_self, min_eq_left hone',
      min_eq_left hone']

/-- C3 witness: the amended statement at the concrete one-bar series. -/
theorem calculateRatioKLine_self_witness :
    ∃ n ∈ [(⟨1, 1, 2, 1, 1, 5⟩ : KLineData)],
      n.timestamp = (⟨1, 1, 2, 1/2, 1, 5⟩ : KLineData).timestamp ∧
        (⟨1, 1, 2, 1/2, 1, 5⟩ : KLineData).«open» = 1 ∧
        (⟨1, 1, 2, 1/2, 1, 5⟩ : KLineData).close = 1 ∧
        (⟨1, 1, 2, 1/2, 1, 5⟩ : KLineData).high = n.high / n.low ∧
        (⟨1, 1, 2, 1/2, 1, 5⟩ : KLineData).low = n.low / n.high ∧
        (⟨1, 1, 2, 1/2, 1, 5⟩ : KLineData).volume = n.volume :=
  calculateRatioKLine_self [⟨1, 1, 2, 1, 1, 5⟩] (by decide)
    (by intro x hx; simp at hx; subst hx; norm_num)
    (by intro x hx; simp at hx; subst hx; norm_num)
    ⟨1, 1, 2, 1/2, 1, 5⟩
    (by norm_num [calculateRatioKLine, commonStartTimestamp, denomLookup, ratioBar,
      List.filterMap_cons, max_def, min_def])

/-- C4: for series A and B with pairwise-distinct timestamps and positive
closes, any two output bars of reconcile(A, B) and reconcile(B, A) at the
same timestamp have reciprocal closes. -/
theorem calculateRatioKLine_close_reciprocal
    (A B : List KLineData)
    (hA : (A.map KLineData.timestamp).Nodup) (hB : (B.map KLineData.timestamp).Nodup)
    (_hAc : ∀ x ∈ A, 0 < x.close) (_hBc : ∀ x ∈ B, 0 < x.close)
    (b b' : KLineData)
    (hb : b ∈ calculateRatioKLine A B) (hb' : b' ∈ calculateRatioKLine B A)
    (hts : b.timestamp = b'.timestamp) :
    b.close = (b'.close)⁻¹ := by
  rw [mem_calculateRatioKLine] at hb hb'
  obtain ⟨n, hn, _, d, hl, rfl⟩ := hb
  obtain ⟨n', hn', _, d', hl', rfl⟩ := hb'
  have hd := denomLookup_mem B n.timestamp hl
  have hd' := denomLookup_mem A n'.timestamp hl'
  have htss : n.timestamp = n'.timestamp := hts
  have h1 : d' = n := List.inj_on_of_nodup_map hA hd'.1 hn (hd'.2.trans htss.symm)
  have h2 : d = n' := List.inj_on_of_nodup_map hB hd.1 hn' (hd.2.trans htss)
  rw [show (ratioBar n d).close = n.close / d.close from rfl,
    show (ratioBar n' d').close = n'.close / d'.close from rfl, h1, h2, inv_div]

/-- C4 witness: reciprocal closes at a concrete pair of one-bar series. -/
theorem calculateRatioKLine_close_reciprocal_witness :
    (⟨1, 1/2, 1/2, 1/2, 1/2, 7⟩ : KLineData).close =
      ((⟨1, 2, 2, 2, 2, 9⟩ : KLineData).close)⁻¹ :=
  calculateRatioKLine_close_reciprocal [⟨1, 2, 2, 2, 2, 7⟩] [⟨1, 4, 4, 4, 4, 9⟩]
    (by decide) (by decide)
    (by intro x hx; simp at hx; subst hx; norm_num)
    (by intro x hx; simp at hx; subst hx; norm_num)
    ⟨1, 1/2, 1/2, 1/2, 1/2, 7⟩ ⟨1, 2, 2, 2, 2, 9⟩
    (by norm_num [calculateRatioKLine, commonStartTimestamp, denomLookup, ratioBar,
      List.filterMap_cons, max_def, min_def])
    (by norm_num [calculateRatioKLine, commonStartTimestamp, denomLookup, ratioBar,
      List.filterMap_cons, max_def, min_def])
    (by norm_num)

/-- C5: for a numerator series with strictly increasing timestamps, the
output timestamps of the reconciler form a strictly increasing subsequence
of the numerator timestamps. -/
theorem calculateRatioKLine_timestamps_strict_subseq (num den : List KLineData)
    (hinc : (num.map KLineData.timestamp).Pairwise (fun a b => a < b)) :
    List.Sublist ((calculateRatioKLine num den).map KLineData.timestamp)
        (num.map KLineData.timestamp) ∧
      ((calculateRatioKLine num den).map KLineData.timestamp).Pairwise
        (fun a b => a < b) :=
  ⟨calculateRatioKLine_map_timestamp_sublist num den,
    hinc.sublist (calculateRatioKLine_map_timestamp_sublist num den)⟩

/-- C5 witness: the subsequence property at the spec scenario. -/
theorem calculateRatioKLine_timestamps_strict_subseq_witness :
    List.Sublist
        ((calculateRatioKLine
            [⟨1, 10, 10, 10, 10, 0⟩, ⟨2, 20, 20, 20, 20, 0⟩, ⟨3, 30, 30, 30, 30, 0⟩]
            [⟨2, 5, 5, 5, 5, 0⟩, ⟨3, 5, 5, 5, 5, 0⟩, ⟨4, 5, 5, 5, 5, 0⟩]).map
          KLineData.timestamp)
        ([⟨1, 10, 10, 10, 10, 0⟩, ⟨2, 20, 20, 20, 20, 0⟩,
            ⟨3, 30, 30, 30, 30, 0⟩].map KLineData.timestamp) ∧
      ((calculateRatioKLine
            [⟨1, 10, 10, 10, 10, 0⟩, ⟨2, 20, 20, 20, 20, 0⟩, ⟨3, 30, 30, 30, 30, 0⟩]
            [⟨2, 5, 5, 5, 5, 0⟩, ⟨3, 5, 5, 5, 5, 0⟩, ⟨4, 5, 5, 5, 5, 0⟩]).map
          KLineData.timestamp).Pairwise (fun a b => a < b) :=
  calculateRatioKLine_timestamps_strict_subseq
    [⟨1, 10, 10, 10, 10, 0⟩, ⟨2, 20, 20, 20, 20, 0⟩, ⟨3, 30, 30, 30, 30, 0⟩]
    [⟨2, 5, 5, 5, 5, 0⟩, ⟨3, 5, 5, 5, 5, 0⟩, ⟨4, 5, 5, 5, 5, 0⟩] (by decide)


/-- C7: every raw-response row in which open, high, low, or close is
null/absent is dropped entirely (every output bar copies all four OHLC
values from a raw index where all are present, with the raw
seconds-since-epoch timestamp converted to milliseconds), and the spec's
concrete example - open [1,null,3], high [2,null,4], low [0.5,null,2],
close [1.5,null,3.5], timestamps [100,200,300] - yields exactly the two
bars at timestamps 100000 and 300000 with the index-1 row fully dropped. -/
theorem normalizeHistoricalData_drops_null_rows :
    (∀ (t : List Int) (op hi lo cl vol : List (Option ℚ)) (b : KLineData),
        b ∈ normalizeHistoricalData t op hi lo cl vol →
          ∃ i, i < t.length ∧ (op.get? i).join = some b.«open» ∧
            (hi.get? i).join = some b.high ∧ (lo.get? i).join = some b.low ∧
            (cl.get? i).join = some b.close ∧ b.timestamp = t.getD i 0 * 1000) ∧
      normalizeHistoricalData [100, 200, 300] [some 1, none, some 3] [some 2, none, some 4]
          [some (1/2), none, some 2] [some (3/2), none, some (7/2)]
          [some 10, some 20, some 30] =
        [⟨100000, 1, 2, 1/2, 3/2, 10⟩, ⟨300000, 3, 4, 2, 7/2, 30⟩] := by
  constructor
  · intro t op hi lo cl vol b hb
    simp only [normalizeHistoricalData, List.mem_filterMap, List.mem_range] at hb
    obtain ⟨i, hi', hf⟩ := hb
    refine ⟨i, hi', ?_⟩
    rcases ho : (op.get? i).join with _ | ov
    · rw [ho] at hf; cases hf
    rcases hh : (hi.get? i).join with _ | hv
    · rw [ho, hh] at hf; cases hf
    rcases hl : (lo.get? i).join with _ | lv
    · rw [ho, hh, hl] at hf; cases hf
    rcases hc : (cl.get? i).join with _ | cv
    · rw [ho, hh, hl, hc] at hf; cases hf
    rw [ho, hh, hl, hc] at hf
    cases hf
    exact ⟨rfl, rfl, rfl, rfl, rfl⟩
  · norm_num [normalizeHistoricalData, List.range_succ, List.filterMap_append,
      List.filterMap_cons]

/-- C7 witness: the first bar of the concrete example comes from raw index 0
with all four OHLC values present and the timestamp in milliseconds. -/
theorem normalizeHistoricalData_drops_null_rows_witness :
    ∃ i, i < ([100, 200, 300] : List Int).length ∧
      (([some 1, none, some 3] : List (Option ℚ)).get? i).join =
          some (⟨100000, 1, 2, 1/2, 3/2, 10⟩ : KLineData).«open» ∧
      (([some 2, none, some 4] : List (Option ℚ)).get? i).join =
          some (⟨100000, 1, 2, 1/2, 3/2, 10⟩ : KLineData).high ∧
      (([some (1/2), none, some 2] : List (Option ℚ)).get? i).join =
          some (⟨100000, 1, 2, 1/2, 3/2, 10⟩ : KLineData).low ∧
      (([some (3/2), none, some (7/2)] : List (Option ℚ)).get? i).join =
          some (⟨100000, 1, 2, 1/2, 3/2, 10⟩ : KLineData).close ∧
      (⟨100000, 1, 2, 1/2, 3/2, 10⟩ : KLineData).timestamp =
        ([100, 200, 300] : List Int).getD i 0 * 1000 :=
  normalizeHistoricalData_drops_null_rows.1 [100, 200, 300] [some 1, none, some 3]
    [some 2, none, some 4] [some (1/2), none, some 2] [some (3/2), none, some (7/2)]
    [some 10, some 20, some 30] ⟨100000, 1, 2, 1/2, 3/2, 10⟩
    (by norm_num [normalizeHistoricalData, List.range_succ, List.filterMap_append,
      List.filterMap_cons])

/-- C10 (implicit): a raw row whose four OHLC entries are all present is
emitted even when its volume entry is null or absent, with the volume
coerced to 0 (null, undefined, and 0 volumes are indistinguishable in the
output); volume presence never decides whether a row is kept. -/
theorem normalizeHistoricalData_volume_coercion :
    (∀ (t : List Int) (op hi lo cl vol : List (Option ℚ)) (i : Nat) (ov hv lv cv : ℚ),
        i < t.length → (op.get? i).join = some ov → (hi.get? i).join = some hv →
          (lo.get? i).join = some lv → (cl.get? i).join = some cv →
          ({ timestamp := t.getD i 0 * 1000, «open» := ov, high := hv, low := lv,
             close := cv, volume := ((vol.get? i).join).getD 0 } : KLineData) ∈
            normalizeHistoricalData t op hi lo cl vol) ∧
      normalizeHistoricalData [100] [some 1] [some 2] [some (1/2)] [some (3/2)] [] =
          [⟨100000, 1, 2, 1/2, 3/2, 0⟩] ∧
        normalizeHistoricalData [100] [some 1] [some 2] [some (1/2)] [some (3/2)] [none] =
          [⟨100000, 1, 2, 1/2, 3/2, 0⟩] ∧
        normalizeHistoricalData [100] [some 1] [some 2] [some (1/2)] [some (3/2)] [some 0] =
          [⟨100000, 1, 2, 1/2, 3/2, 0⟩] := by
  refine ⟨?_, ?_, ?_, ?_⟩
  · intro t op hi lo cl vol i ov hv lv cv hi' ho hh hl hc
    simp only [normalizeHistoricalData, List.mem_filterMap, List.mem_range]
    exact ⟨i, hi', by rw [ho, hh, hl, hc]⟩
  all_goals
    norm_num [normalizeHistoricalData, List.range_succ, List.filterMap_append,
      List.filterMap_cons]

/-- C10 witness: a concrete all-OHLC-present row with an absent volume entry
is emitted with volume 0. -/
theorem normalizeHistoricalData_volume_coercion_witness :
    ({ timestamp := ([100] : List Int).getD 0 0 * 1000, «open» := (1 : ℚ), high := (2 : ℚ),
       low := ((1 : ℚ)/2), close := ((3 : ℚ)/2),
       volume := ((([] : List (Option ℚ)).get? 0).join).getD 0 } : KLineData) ∈
      normalizeHistoricalData [100] [some 1] [some 2] [some (1/2)] [some (3/2)] [] :=
  normalizeHistoricalData_volume_coercion.1 [100] [some 1] [some 2] [some (1/2)]
    [some (3/2)] [] 0 1 2 (1/2) (3/2) (by decide) rfl rfl rfl rfl

/-- C9: the reconciler is total - for every pair of input series, including
empty and degenerate ones, it returns a (possibly empty) output list, never
an error (its output is never longer than the numerator) - and a matched
denominator bar with open exactly zero yields an output bar whose open is a
non-finite JS number rather than an error. -/
theorem calculateRatioKLineJS_total_nonfinite :
    (∀ num den : List KLineDataJS, (calculateRatioKLineJS num den).length ≤ num.length) ∧
      (∀ n d : KLineDataJS, n.timestamp = d.timestamp → d.«open» = JSNum.num 0 →
        ∃ b rest, calculateRatioKLineJS [n] [d] = b :: rest ∧
          b.«open».isFinite = false) := by
  constructor
  · intro num den
    exact List.length_filterMap_le _ _
  · intro n d hts hop
    refine ⟨ratioBarJS n d, [], ?_, ?_⟩
    · simp [calculateRatioKLineJS, denomLookupJS, List.filterMap_cons, ← hts]
    · show (n.«open».div d.«open»).isFinite = false
      rw [hop]
      exact JSNum.div_num_zero_not_finite n.«open»

/-- C9 witness: a concrete matched pair with denominator open 0 yields a
non-finite open. -/
theorem calculateRatioKLineJS_total_nonfinite_witness :
    ∃ b rest,
      calculateRatioKLineJS [⟨1, JSNum.num 1, JSNum.num 1, JSNum.num 1, JSNum.num 1,
          JSNum.num 5⟩]
        [⟨1, JSNum.num 0, JSNum.num 0, JSNum.num 0, JSNum.num 0, JSNum.num 9⟩] =
        b :: rest ∧ b.«open».isFinite = false :=
  calculateRatioKLineJS_total_nonfinite.2
    ⟨1, JSNum.num 1, JSNum.num 1, JSNum.num 1, JSNum.num 1, JSNum.num 5⟩
    ⟨1, JSNum.num 0, JSNum.num 0, JSNum.num 0, JSNum.num 0, JSNum.num 9⟩ rfl rfl

/-- C8 counterexample: the pair string with a whitespace-only denominator
side splits into a second part that is empty after trimming, yet the
operation does not fail - it issues both fetches, the second with the empty
trimmed symbol. -/
theorem fetchUSRatioKLine_whitespace_not_rejected :
    jsSplit '/' ("A/ ") = ["A", " "] ∧ jsTrim (" ") = "" ∧
      fetchUSRatioKLine ("A/ ") ("1d") =
        Except.ok [("A", "2y", "1d"), ("", "2y", "1d")] := by
  refine ⟨by decide, by decide, by decide⟩

/-- C8 (amended): a pair string whose split on the slash has an empty or
missing first or second part - no slash at all, or a side empty before
trimming - fails with the invalid-pair error before any fetch is issued;
a side that is merely whitespace passes the check, and both fetches are
issued with the trimmed (possibly empty) symbols. -/
theorem fetchUSRatioKLine_validation (pairSymbol interval : String) :
    (((jsSplit '/' pairSymbol).getD 0 "" = "" ∨ (jsSplit '/' pairSymbol).getD 1 "" = "") →
        fetchUSRatioKLine pairSymbol interval =
          Except.error ("Invalid trading pair: " ++ pairSymbol)) ∧
      ((jsSplit '/' pairSymbol).getD 0 "" ≠ "" → (jsSplit '/' pairSymbol).getD 1 "" ≠ "" →
        fetchUSRatioKLine pairSymbol interval =
          Except.ok
            [(jsTrim ((jsSplit '/' pairSymbol).getD 0 ""), getAppropriateRange interval,
                interval),
              (jsTrim ((jsSplit '/' pairSymbol).getD 1 ""), getAppropriateRange interval,
                interval)]) := by
  constructor
  · intro h
    simp only [fetchUSRatioKLine, if_pos h]
  · intro h1 h2
    have : ¬((jsSplit '/' pairSymbol).getD 0 "" = "" ∨
        (jsSplit '/' pairSymbol).getD 1 "" = "") := by
      rintro (h | h)
      · exact h1 h
      · exact h2 h
    simp only [fetchUSRatioKLine, if_neg this]

/-- C8 witness: a pair string with no slash is rejected with the
invalid-pair error (no fetch list is produced). -/
theorem fetchUSRatioKLine_validation_witness :
    fetchUSRatioKLine ("ABC") ("1d") = Except.error ("Invalid trading pair: " ++ "ABC") :=
  (fetchUSRatioKLine_validation ("ABC") ("1d")).1 (by decide)

end InterMarket
